import Mathlib

/-!
Verification of the dependency-keyed cache invalidation service
(src/cache-dependency.service.ts of nestjs-cache-dependency).

The backing store (cache-manager) holds string values under string keys.
We embed each stored string as a Cell carrying the exact stored text
together with the result JSON.parse would produce on that text
(none when parsing would throw).  The service itself only ever stores
two kinds of texts: JSON renderings of a 2-element payload array, and
plain version tokens for tag keys; both are constructed coherently below.
Date.now() is modelled as an explicit natural-number argument (now) to
every operation that reads the clock; the version token String(Date.now())
becomes toString now.
-/

/-- A JSON value: the payloads the service serializes and parses. -/
inductive Json where
  | null
  | bool (b : Bool)
  | num (n : Int)
  | str (s : String)
  | arr (elems : List Json)
  | obj (fields : List (String × Json))

mutual

/-- Structural equality of JSON values (decidable equality helper). -/
def Json.beq : Json → Json → Bool
  | .null, .null => true
  | .bool a, .bool b => a == b
  | .num a, .num b => a == b
  | .str a, .str b => a == b
  | .arr xs, .arr ys => beqJsonList xs ys
  | .obj fs, .obj gs => beqJsonFields fs gs
  | _, _ => false

def beqJsonList : List Json → List Json → Bool
  | [], [] => true
  | x :: xs, y :: ys => x.beq y && beqJsonList xs ys
  | _, _ => false

def beqJsonFields : List (String × Json) → List (String × Json) → Bool
  | [], [] => true
  | (k1, v1) :: fs, (k2, v2) :: gs => k1 == k2 && v1.beq v2 && beqJsonFields fs gs
  | _, _ => false

end

mutual

def Json.beq_refl : ∀ a : Json, a.beq a = true
  | .null => rfl
  | .bool a => by simp [Json.beq]
  | .num a => by simp [Json.beq]
  | .str a => by simp [Json.beq]
  | .arr xs => beqJsonList_refl xs
  | .obj fs => beqJsonFields_refl fs

def beqJsonList_refl : ∀ xs : List Json, beqJsonList xs xs = true
  | [] => rfl
  | x :: xs => by
      simp only [beqJsonList, Bool.and_eq_true]
      exact ⟨Json.beq_refl x, beqJsonList_refl xs⟩

def beqJsonFields_refl : ∀ fs : List (String × Json), beqJsonFields fs fs = true
  | [] => rfl
  | (k, v) :: fs => by
      simp only [beqJsonFields, Bool.and_eq_true]
      exact ⟨⟨by simp, Json.beq_refl v⟩, beqJsonFields_refl fs⟩

end

mutual

def Json.eq_of_beq : ∀ a b : Json, a.beq b = true → a = b
  | .null, .null, _ => rfl
  | .bool a, .bool b, h => by simpa [Json.beq] using h
  | .num a, .num b, h => by simpa [Json.beq] using h
  | .str a, .str b, h => by simpa [Json.beq] using h
  | .arr xs, .arr ys, h => congrArg Json.arr (eqJsonList_of_beq xs ys h)
  | .obj fs, .obj gs, h => congrArg Json.obj (eqJsonFields_of_beq fs gs h)
  | .null, .bool _, h => by cases h
  | .null, .num _, h => by cases h
  | .null, .str _, h => by cases h
  | .null, .arr _, h => by cases h
  | .null, .obj _, h => by cases h
  | .bool _, .null, h => by cases h
  | .bool _, .num _, h => by cases h
  | .bool _, .str _, h => by cases h
  | .bool _, .arr _, h => by cases h
  | .bool _, .obj _, h => by cases h
  | .num _, .null, h => by cases h
  | .num _, .bool _, h => by cases h
  | .num _, .str _, h => by cases h
  | .num _, .arr _, h => by cases h
  | .num _, .obj _, h => by cases h
  | .str _, .null, h => by cases h
  | .str _, .bool _, h => by cases h
  | .str _, .num _, h => by cases h
  | .str _, .arr _, h => by cases h
  | .str _, .obj _, h => by cases h
  | .arr _, .null, h => by cases h
  | .arr _, .bool _, h => by cases h
  | .arr _, .num _, h => by cases h
  | .arr _, .str _, h => by cases h
  | .arr _, .obj _, h => by cases h
  | .obj _, .null, h => by cases h
  | .obj _, .bool _, h => by cases h
  | .obj _, .num _, h => by cases h
  | .obj _, .str _, h => by cases h
  | .obj _, .arr _, h => by cases h

def eqJsonList_of_beq : ∀ xs ys : List Json, beqJsonList xs ys = true → xs = ys
  | [], [], _ => rfl
  | x :: xs, y :: ys, h => by
      simp only [beqJsonList, Bool.and_eq_true] at h
      rw [Json.eq_of_beq x y h.1, eqJsonList_of_beq xs ys h.2]
  | [], _ :: _, h => by cases h
  | _ :: _, [], h => by cases h

def eqJsonFields_of_beq : ∀ fs gs : List (String × Json), beqJsonFields fs gs = true → fs = gs
  | [], [], _ => rfl
  | (k1, v1) :: fs, (k2, v2) :: gs, h => by
      simp only [beqJsonFields, Bool.and_eq_true] at h
      obtain ⟨⟨hk, hv⟩, ht⟩ := h
      rw [eq_of_beq hk, Json.eq_of_beq v1 v2 hv, eqJsonFields_of_beq fs gs ht]
  | [], _ :: _, h => by cases h
  | _ :: _, [], h => by cases h

end

instance Json.instDecEq : DecidableEq Json := fun a b =>
  if h : a.beq b = true then isTrue (Json.eq_of_beq a b h)
  else isFalse (fun he => h (he ▸ Json.beq_refl a))

instance instDecEqExcept {ε α : Type} [DecidableEq ε] [DecidableEq α] :
    DecidableEq (Except ε α)
  | .ok x, .ok y =>
      match decEq x y with
      | isTrue h => isTrue (by rw [h])
      | isFalse h => isFalse (fun he => h (Except.ok.inj he))
  | .error x, .error y =>
      match decEq x y with
      | isTrue h => isTrue (by rw [h])
      | isFalse h => isFalse (fun he => h (Except.error.inj he))
  | .ok _, .error _ => isFalse (fun he => Except.noConfusion he)
  | .error _, .ok _ => isFalse (fun he => Except.noConfusion he)

mutual

/-- JSON.stringify: renders a JSON value to text (canonical, no spaces). -/
def Json.render : Json → String
  | .null => "null"
  | .bool true => "true"
  | .bool false => "false"
  | .num n => toString n
  | .str s => "\"" ++ s ++ "\""
  | .arr xs => "[" ++ renderJsonList xs ++ "]"
  | .obj fs => "\x7b" ++ renderJsonFields fs ++ "\x7d"

def renderJsonList : List Json → String
  | [] => ""
  | [x] => x.render
  | x :: y :: xs => x.render ++ "," ++ renderJsonList (y :: xs)

def renderJsonFields : List (String × Json) → String
  | [] => ""
  | [(k, v)] => "\"" ++ k ++ "\":" ++ v.render
  | (k, v) :: f :: fs => "\"" ++ k ++ "\":" ++ v.render ++ "," ++ renderJsonFields (f :: fs)

end

/-- A JavaScript value as far as this service observes them: either
undefined or a JSON-representable value.  cacheManager.get returns
undefined for a missing key; callers may pass undefined to set. -/
inductive JsVal where
  | undefined
  | js (j : Json)
deriving DecidableEq

/-- The JSON image of a JS value when serialized inside an array:
JSON.stringify renders undefined array elements as null. -/
def jsImage : JsVal → Json
  | .undefined => .null
  | .js j => j

/-- A string stored in the backing store: the exact stored text plus the
result JSON.parse would give on it (none when parsing throws).  The
service always writes coherent cells; corruption scenarios supply their
own cells, whose raw text and parse result must agree with real JSON. -/
structure Cell where
  raw : String
  parsed : Option Json
deriving DecidableEq

/-- The backing key/value store: an association list from keys to the
stored cell and the ttl passed on the write that produced it (none
models an undefined ttl argument).  Writes prepend; reads take the
most recent write. -/
def Store := List (String × Cell × Option Nat)

instance : DecidableEq Store := fun a b => List.hasDecEq a b

def storeFind : Store → String → Option (Cell × Option Nat)
  | [], _ => none
  | e :: rest, k => if e.1 = k then some e.2 else storeFind rest k

/-- cacheManager.get: the stored cell under a key, if any. -/
def storeGet (st : Store) (k : String) : Option Cell :=
  (storeFind st k).map (fun e => e.1)

/-- The ttl recorded by the most recent write to a key. -/
def storeTtl (st : Store) (k : String) : Option (Option Nat) :=
  (storeFind st k).map (fun e => e.2)

/-- cacheManager.set. -/
def storeSet (st : Store) (k : String) (c : Cell) (ttl : Option Nat) : Store :=
  (k, c, ttl) :: st

/-- cacheManager.del. -/
def storeDel (st : Store) (k : String) : Store :=
  st.filter (fun e => e.1 != k)

/-! ### Key normalization (buildCacheKey and friends) -/

/-- buildCacheKey: concatenates a fixed literal namespace marker with the
raw key (source: return prefix + key). -/
def buildCacheKey (key pre : String) : String := pre ++ key

/-- buildDataCacheKey: normalized key for data entries. -/
def buildDataCacheKey (key : String) : String := buildCacheKey key "D_"

/-- buildDependencyCacheKey: normalized key for tag/version entries. -/
def buildDependencyCacheKey (key : String) : String := buildCacheKey key "T_"

/-! ### Dependency records and the tag-version algorithms -/

/-- A Dependency record as built on the write path: a tag key together
with its version, none standing for the undefined version of a tag that
has no recorded value yet. -/
structure Dependency where
  key : String
  version : Option String
deriving DecidableEq

/-- The version currently recorded for a tag key: the raw stored text. -/
def tagVersion (st : Store) (k : String) : Option String :=
  (storeGet st k).map Cell.raw

/-- getDependencyVersions: one Dependency per input key, in input order,
version read from the backing store (undefined when absent). -/
def getDependencyVersions (st : Store) (dependencyKeys : List String) : List Dependency :=
  dependencyKeys.map (fun k => ⟨k, tagVersion st k⟩)

/-- The cell written for a tag key at clock reading now: the text
String(Date.now()), which parses as the corresponding JSON number. -/
def mkTagCell (now : Nat) : Cell := ⟨toString now, some (.num (Int.ofNat now))⟩

/-- updateDependencyVersions: computes one version token from the clock,
writes that same token to every key in the batch with ttl 0, and returns
one Dependency per key carrying the token. -/
def updateDependencyVersions (st : Store) (now : Nat) (dependencyKeys : List String) :
    Store × List Dependency :=
  (dependencyKeys.foldl (fun s k => storeSet s k (mkTagCell now) (some 0)) st,
   dependencyKeys.map (fun k => ⟨k, some (toString now)⟩))

/-- One step of mergeDependencyVersions: find the first entry of arr1
whose key equals the key of e2 and replace it, or append e2 if none. -/
def mergeStep (arr1 : List Dependency) (e2 : Dependency) : List Dependency :=
  match arr1.findIdx? (fun e1 => e1.key == e2.key) with
  | some i => arr1.set i e2
  | none => arr1 ++ [e2]

/-- mergeDependencyVersions: folds every element of arr2 into arr1 in
order (the source mutates arr1 with forEach over arr2). -/
def mergeDependencyVersions (arr1 arr2 : List Dependency) : List Dependency :=
  arr2.foldl mergeStep arr1

/-- generateDependencyVersions: fetch current versions, mint versions for
the keys that have none, merge the minted records back in. -/
def generateDependencyVersions (st : Store) (now : Nat) (dependencyKeys : List String) :
    Store × List Dependency :=
  let currentDependencies := getDependencyVersions st dependencyKeys
  let newDependencyKeys :=
    (currentDependencies.filter (fun d => d.version.isNone)).map (fun d => d.key)
  if newDependencyKeys.isEmpty then
    (st, currentDependencies)
  else
    let r := updateDependencyVersions st now newDependencyKeys
    (r.1, mergeDependencyVersions currentDependencies r.2)

/-! ### Serialization of the payload written by set -/

/-- JSON.stringify of a Dependency object: a version that is undefined is
dropped from the serialized object. -/
def dependencyToJson (d : Dependency) : Json :=
  .obj (("key", .str d.key) ::
    (match d.version with
     | some v => [("version", .str v)]
     | none => []))

def dependenciesToJson (l : List Dependency) : Json :=
  .arr (l.map dependencyToJson)

/-- The cell written under a data key: the rendered text of the
2-element payload array together with its parse. -/
def mkDataCell (payload : Json) : Cell := ⟨payload.render, some payload⟩

/-! ### The public operations -/

/-- The dependencyKeys argument as the source accepts it dynamically:
null/undefined, a single string, or an array of strings. -/
inductive DependencyKeysArg where
  | absent
  | single (s : String)
  | list (l : List String)
deriving DecidableEq

/-- The normalization performed by set: null/undefined becomes the empty
sequence, a non-array value is wrapped in a one-element sequence. -/
def normalizeDependencyKeys : DependencyKeysArg → List String
  | .absent => []
  | .single s => [s]
  | .list l => l

/-- JavaScript truthiness of the dependencyKeys argument, as tested by
the if statement in invalidate: null/undefined and the empty string are
falsy; every array, including the empty array, is truthy. -/
def isTruthyArg : DependencyKeysArg → Bool
  | .absent => false
  | .single s => !s.isEmpty
  | .list _ => true

/-- set: normalizes the dependency keys, prefixes them, resolves each to
a current-or-minted Dependency, and stores the serialized pair
[value, dependencies] under the prefixed data key with the given ttl. -/
def set (st : Store) (now : Nat) (key : String) (value : JsVal) (ttl : Option Nat)
    (dependencyKeys : DependencyKeysArg) : Store :=
  let cacheKey := buildDataCacheKey key
  let dkeys := (normalizeDependencyKeys dependencyKeys).map buildDependencyCacheKey
  let r := generateDependencyVersions st now dkeys
  storeSet r.1 cacheKey
    (mkDataCell (.arr [jsImage value, dependenciesToJson r.2]))
    ttl

/-- Reading property key of a parsed snapshot element (e.key in the
source): throws on null, yields undefined on a non-object or an object
without that property. -/
def jsGetKey : Json → Except Unit JsVal
  | .null => .error ()
  | .obj fs =>
      .ok (match fs.lookup "key" with
           | some v => .js v
           | none => .undefined)
  | _ => .ok .undefined

/-- cacheManager.get applied to an arbitrary JS value used as a key:
only a string key can hit (store keys are strings and Map lookup
compares identities), everything else misses. -/
def tagReadJs (st : Store) (k : JsVal) : Option String :=
  match k with
  | .js (.str s) => tagVersion st s
  | _ => none

/-- cachedData[1].map(e => e.key): reads the key property of every
snapshot element in order, throwing at the first null element. -/
def mapSnapshotKeys : List Json → Except Unit (List JsVal)
  | [] => .ok []
  | j :: js => do
      let k ← jsGetKey j
      let ks ← mapSnapshotKeys js
      .ok (k :: ks)

/-- lodash isEqual between a freshly built record (key e.key, version
from the store, both possibly undefined) and a stored snapshot element.
A fresh record always carries both properties, so a stored object must
have exactly the properties key and version with equal values; an
undefined fresh version never equals a stored JSON value. -/
def depMatches (fk : JsVal) (fv : Option String) (j : Json) : Bool :=
  match j with
  | .obj fs =>
      fs.length == 2 &&
      (match fs.lookup "key", fs.lookup "version" with
       | some jk, some jv =>
           (match fk with
            | .undefined => false
            | .js a => a.beq jk) &&
           (match fv with
            | some s => jv.beq (.str s)
            | none => false)
       | _, _ => false)
  | _ => false

/-- lodash isEqual between the freshly fetched sequence and the stored
snapshot: same length and pairwise equal. -/
def matchesAll : List (JsVal × Option String) → List Json → Bool
  | [], [] => true
  | (k, v) :: fs, j :: js => depMatches k v j && matchesAll fs js
  | _, _ => false

/-- validateDependencyVersions: valid when the payload is a 2-element
array whose second element is null or an empty array; for a non-empty
dependency array, re-fetch the versions of exactly the recorded keys and
compare structurally; a 2-element payload whose second element is
neither null nor an array makes the source call .map on a non-array,
which throws. -/
def validateDependencyVersions (st : Store) (cachedData : Json) : Except Unit Bool :=
  match cachedData with
  | .arr [_, .null] => .ok true
  | .arr [_, .arr []] => .ok true
  | .arr [_, .arr (d :: ds)] => do
      let keys ← mapSnapshotKeys (d :: ds)
      let fresh := keys.map (fun k => (k, tagReadJs st k))
      .ok (matchesAll fresh (d :: ds))
  | .arr [_, _] => .error ()
  | _ => .ok false

/-- data[0] on the validated payload (always a 2-element array when
validation succeeded). -/
def jsonIndex0 : Json → Option Json
  | .arr (x :: _) => some x
  | _ => none

/-- get: loads the stored entry, parses it (JSON.parse throws on
unparseable text and the source does not catch it), validates the
snapshot, and returns the cached value or undefined. -/
def get (st : Store) (key : String) : Except Unit (Option Json) :=
  match storeGet st (buildDataCacheKey key) with
  | none => .ok none
  | some c =>
      match c.parsed with
      | none => .error ()
      | some data =>
          match validateDependencyVersions st data with
          | .error e => .error e
          | .ok true => .ok (jsonIndex0 data)
          | .ok false => .ok none

/-- invalidate: on a truthy argument, prefixes the keys and touches them
all, returning true; on a falsy argument (null/undefined/empty string)
returns false without touching storage. -/
def invalidate (st : Store) (now : Nat) (dependencyKeys : DependencyKeysArg) :
    Store × Bool :=
  if isTruthyArg dependencyKeys then
    let keys := (normalizeDependencyKeys dependencyKeys).map buildDependencyCacheKey
    ((updateDependencyVersions st now keys).1, true)
  else
    (st, false)

/-- delete: removes the data entry; tag versions are untouched. -/
def delete (st : Store) (key : String) : Store :=
  storeDel st (buildDataCacheKey key)

/-! ### Sequential runs -/

/-- One public operation together with the clock reading it observes. -/
inductive Op where
  | setOp (now : Nat) (key : String) (value : JsVal) (ttl : Option Nat)
      (deps : DependencyKeysArg)
  | getOp (key : String)
  | invalidateOp (now : Nat) (deps : DependencyKeysArg)
  | deleteOp (key : String)

/-- The store after one operation (get only reads). -/
def stepOp (st : Store) : Op → Store
  | .setOp now k v ttl d => set st now k v ttl d
  | .getOp _ => st
  | .invalidateOp now d => (invalidate st now d).1
  | .deleteOp k => delete st k

/-- A sequence of invalidate calls, each with its own clock reading. -/
def runInvalidates (st : Store) : List (Nat × DependencyKeysArg) → Store
  | [] => st
  | (now, a) :: rest => runInvalidates (invalidate st now a).1 rest

/-- The ttl literal 0 passed on every tag-version write: cache-manager
treats a ttl of 0 as store-with-no-expiry, so tag versions outlive any
data ttl. -/
def ttlNoExpiry : Nat := 0

/-! ### Helper lemmas: the backing store -/

@[simp] theorem storeFind_storeSet (st : Store) (k x : String) (c : Cell) (t : Option Nat) :
    storeFind (storeSet st k c t) x = if k = x then some (c, t) else storeFind st x := rfl

@[simp] theorem storeFind_nil (x : String) : storeFind [] x = none := rfl

theorem storeFind_storeDel (st : Store) (k x : String) :
    storeFind (storeDel st k) x = if k = x then none else storeFind st x := by
  induction st with
  | nil => simp [storeDel, List.filter]
  | cons e rest ih =>
    by_cases hek : e.1 = k
    · have h1 : (e.1 != k) = false := by simp [hek]
      simp only [storeDel, List.filter, h1] at *
      by_cases hkx : k = x
      · simpa [hkx] using ih
      · have hex : ¬ e.1 = x := fun h => hkx (hek.symm.trans h)
        simp [ih, hkx, storeFind, hex]
    · have h1 : (e.1 != k) = true := by simp [hek]
      simp only [storeDel, List.filter, h1] at *
      by_cases hex : e.1 = x
      · have hkx : ¬ k = x := fun h => hek (hex.trans h.symm)
        simp [storeFind, hex, hkx]
      · simp [storeFind, hex, ih]

/-! ### Helper lemmas: key namespaces -/

/-- The data and tag namespaces can never collide. -/
theorem dataKey_ne_tagKey (k d : String) :
    buildDataCacheKey k ≠ buildDependencyCacheKey d := by
  intro h
  have h2 : 'D' :: '_' :: k.data = 'T' :: '_' :: d.data := congrArg String.data h
  exact absurd (List.head_eq_of_cons_eq h2) (by decide)

theorem buildDependencyCacheKey_inj {a b : String}
    (h : buildDependencyCacheKey a = buildDependencyCacheKey b) : a = b := by
  have h2 : 'T' :: '_' :: a.data = 'T' :: '_' :: b.data := congrArg String.data h
  obtain ⟨da⟩ := a
  obtain ⟨db⟩ := b
  exact congrArg String.mk (by simpa using h2)

theorem mem_map_tagKey {x : String} {l : List String}
    (h : x ∈ l) : buildDependencyCacheKey x ∈ l.map buildDependencyCacheKey :=
  List.mem_map_of_mem _ h

theorem tagKey_mem_map_iff {x : String} {l : List String} :
    buildDependencyCacheKey x ∈ l.map buildDependencyCacheKey ↔ x ∈ l := by
  constructor
  · intro h
    obtain ⟨y, hy, he⟩ := List.mem_map.mp h
    exact (buildDependencyCacheKey_inj he) ▸ hy
  · exact mem_map_tagKey

theorem dataKey_not_mem_map_tagKey (k : String) (l : List String) :
    buildDataCacheKey k ∉ l.map buildDependencyCacheKey := by
  intro h
  obtain ⟨y, _, he⟩ := List.mem_map.mp h
  exact dataKey_ne_tagKey k y he.symm

/-! ### Helper lemmas: batched tag writes -/

theorem storeFind_foldl_set (keys : List String) (st : Store) (c : Cell)
    (t : Option Nat) (x : String) :
    storeFind (keys.foldl (fun s k => storeSet s k c t) st) x =
      if x ∈ keys then some (c, t) else storeFind st x := by
  induction keys generalizing st with
  | nil => simp
  | cons k ks ih =>
    rw [List.foldl_cons, ih]
    by_cases hx : x ∈ ks
    · simp [hx, List.mem_cons]
    · by_cases hk : k = x
      · simp [hx, hk, List.mem_cons]
      · simp [hx, hk, List.mem_cons, Ne.symm hk]

theorem updateDependencyVersions_fst (st : Store) (now : Nat) (keys : List String)
    (x : String) :
    storeFind (updateDependencyVersions st now keys).1 x =
      if x ∈ keys then some (mkTagCell now, some 0) else storeFind st x :=
  storeFind_foldl_set keys st (mkTagCell now) (some 0) x

theorem updateDependencyVersions_snd (st : Store) (now : Nat) (keys : List String) :
    (updateDependencyVersions st now keys).2 =
      keys.map (fun k => ⟨k, some (toString now)⟩) := rfl

theorem tagVersion_update (st : Store) (now : Nat) (keys : List String) (x : String) :
    tagVersion (updateDependencyVersions st now keys).1 x =
      if x ∈ keys then some (toString now) else tagVersion st x := by
  rw [tagVersion, storeGet, updateDependencyVersions_fst]
  by_cases hx : x ∈ keys <;> simp [hx, mkTagCell, tagVersion, storeGet]

/-! ### Helper lemmas: generateDependencyVersions -/

theorem mem_newDependencyKeys (st : Store) (keys : List String) (x : String) :
    (x ∈ ((getDependencyVersions st keys).filter
        (fun d => d.version.isNone)).map (fun d => d.key)) ↔
      x ∈ keys ∧ tagVersion st x = none := by
  simp only [getDependencyVersions, List.mem_map, List.mem_filter]
  constructor
  · rintro ⟨d, ⟨⟨k, hk, he⟩, hnone⟩, hkey⟩
    cases he
    exact ⟨hkey ▸ hk, by simpa [← hkey] using Option.isNone_iff_eq_none.mp hnone⟩
  · rintro ⟨hx, hnone⟩
    exact ⟨⟨x, tagVersion st x⟩, ⟨⟨x, hx, rfl⟩, by simp [hnone]⟩, rfl⟩

theorem generateDependencyVersions_fst (st : Store) (now : Nat) (keys : List String)
    (x : String) :
    storeFind (generateDependencyVersions st now keys).1 x =
      if x ∈ keys ∧ tagVersion st x = none then some (mkTagCell now, some 0)
      else storeFind st x := by
  rw [generateDependencyVersions]
  by_cases he : (((getDependencyVersions st keys).filter
      (fun d => d.version.isNone)).map (fun d => d.key)).isEmpty
  · rw [if_pos he]
    have hnone : ¬ (x ∈ keys ∧ tagVersion st x = none) := by
      intro hx
      have := (mem_newDependencyKeys st keys x).mpr hx
      rw [List.isEmpty_iff] at he
      simp [he] at this
    simp [hnone]
  · rw [if_neg he]
    simp only [updateDependencyVersions_fst, mem_newDependencyKeys]

/-! ### Helper lemmas: mergeDependencyVersions -/

theorem mergeStep_cons_ne (x : Dependency) (l : List Dependency) (e2 : Dependency)
    (h : e2.key ≠ x.key) : mergeStep (x :: l) e2 = x :: mergeStep l e2 := by
  have hp : (x.key == e2.key) = false := by
    simp [Ne.symm h]
  rw [mergeStep, mergeStep, List.findIdx?_cons, hp]
  cases hf : l.findIdx? (fun e1 => e1.key == e2.key) with
  | none => simp [hf]
  | some i => simp [hf, List.set]

theorem foldl_mergeStep_cons (x : Dependency) (l : List Dependency)
    (a2 : List Dependency) (h : ∀ e2 ∈ a2, e2.key ≠ x.key) :
    a2.foldl mergeStep (x :: l) = x :: a2.foldl mergeStep l := by
  induction a2 generalizing l with
  | nil => rfl
  | cons e a2t ih =>
    rw [List.foldl_cons, List.foldl_cons,
      mergeStep_cons_ne x l e (h e (List.mem_cons_self e a2t))]
    exact ih (mergeStep l e) (fun e2 he2 => h e2 (List.mem_cons_of_mem e he2))

theorem foldl_mergeStep_filter_map (ver : String) :
    ∀ cur : List Dependency, (cur.map (fun d => d.key)).Nodup →
    ((cur.filter (fun d => d.version.isNone)).map
        (fun d => (⟨d.key, some ver⟩ : Dependency))).foldl mergeStep cur =
      cur.map (fun d => if d.version.isNone then ⟨d.key, some ver⟩ else d) := by
  intro cur
  induction cur with
  | nil => intro _; rfl
  | cons d rest ih =>
    intro hnd
    rw [List.map_cons] at hnd
    have hkey : d.key ∉ rest.map (fun d => d.key) := (List.nodup_cons.mp hnd).1
    have hrest := (List.nodup_cons.mp hnd).2
    have hne : ∀ e2 ∈ (rest.filter (fun d => d.version.isNone)).map
        (fun d => (⟨d.key, some ver⟩ : Dependency)),
        e2.key ≠ (⟨d.key, some ver⟩ : Dependency).key := by
      rintro e2 he2 he
      obtain ⟨d2, hd2, hed⟩ := List.mem_map.mp he2
      apply hkey
      rw [← he, ← hed]
      exact List.mem_map.mpr ⟨d2, List.mem_of_mem_filter hd2, rfl⟩
    by_cases hv : d.version.isNone
    · have hstep : mergeStep (d :: rest) ⟨d.key, some ver⟩ =
          (⟨d.key, some ver⟩ : Dependency) :: rest := by
        rw [mergeStep, List.findIdx?_cons]
        simp [List.set]
      rw [List.filter_cons_of_pos (by simpa using hv), List.map_cons, List.foldl_cons,
        hstep, foldl_mergeStep_cons (⟨d.key, some ver⟩ : Dependency) rest _ hne,
        ih hrest, List.map_cons, if_pos hv]
    · have hne2 : ∀ e2 ∈ (rest.filter (fun d => d.version.isNone)).map
          (fun d => (⟨d.key, some ver⟩ : Dependency)), e2.key ≠ d.key := hne
      rw [List.filter_cons_of_neg (by simpa using hv),
        foldl_mergeStep_cons d rest _ hne2, ih hrest, List.map_cons, if_neg hv]

theorem generateDependencyVersions_snd (st : Store) (now : Nat) (keys : List String)
    (hnd : keys.Nodup) :
    (generateDependencyVersions st now keys).2 =
      keys.map (fun k =>
        if (tagVersion st k).isNone then ⟨k, some (toString now)⟩
        else ⟨k, tagVersion st k⟩) := by
  rw [generateDependencyVersions]
  have hcurkeys : (getDependencyVersions st keys).map (fun d => d.key) = keys := by
    rw [getDependencyVersions, List.map_map]
    exact List.map_id'' (fun x => rfl) keys
  by_cases he : (((getDependencyVersions st keys).filter
      (fun d => d.version.isNone)).map (fun d => d.key)).isEmpty
  · rw [if_pos he]
    rw [List.isEmpty_iff, List.map_eq_nil_iff, List.filter_eq_nil_iff] at he
    simp only [getDependencyVersions]
    refine List.map_congr_left (fun k hk => ?_)
    have := he ⟨k, tagVersion st k⟩
      (List.mem_map.mpr ⟨k, hk, rfl⟩)
    rw [if_neg (by simpa using this)]
  · rw [if_neg he]
    simp only [mergeDependencyVersions, updateDependencyVersions_snd, List.map_map]
    have hmm : ((getDependencyVersions st keys).filter (fun d => d.version.isNone)).map
        ((fun k => (⟨k, some (toString now)⟩ : Dependency)) ∘ (fun d => d.key)) =
        ((getDependencyVersions st keys).filter (fun d => d.version.isNone)).map
        (fun d => (⟨d.key, some (toString now)⟩ : Dependency)) := rfl
    rw [hmm, foldl_mergeStep_filter_map _ _ (by rw [hcurkeys]; exact hnd)]
    rw [getDependencyVersions, List.map_map]
    rfl

/-! ### Helper lemmas: validating a snapshot written by set -/

theorem jsGetKey_dependencyToJson (d : Dependency) :
    jsGetKey (dependencyToJson d) = .ok (.js (.str d.key)) := by
  rcases d with ⟨k, v⟩
  cases v <;> rfl

theorem mapSnapshotKeys_dependencyToJson (l : List Dependency) :
    mapSnapshotKeys (l.map dependencyToJson) =
      .ok (l.map (fun d => JsVal.js (.str d.key))) := by
  induction l with
  | nil => rfl
  | cons d rest ih =>
    simp only [List.map_cons, mapSnapshotKeys, jsGetKey_dependencyToJson, ih]
    rfl

theorem depMatches_dependencyToJson (st : Store) (d : Dependency) :
    depMatches (.js (.str d.key)) (tagVersion st d.key) (dependencyToJson d) =
      (tagVersion st d.key == d.version && d.version.isSome) := by
  rcases d with ⟨k, v⟩
  cases v with
  | none =>
    have hr : (tagVersion st k == (none : Option String)
        && (none : Option String).isSome) = false := by simp
    rw [hr]
    rfl
  | some s =>
    simp only [depMatches, dependencyToJson, List.lookup]
    cases htv : tagVersion st k with
    | none => simp
    | some s2 =>
      simp only [show (("key" : String) == "key") = true from rfl,
        show (("version" : String) == "key") = false from rfl,
        show (("version" : String) == "version") = true from rfl]
      simp only [List.length_cons, List.length_nil, Json.beq, Option.isSome_some,
        Bool.and_true]
      have hs : ((s : String) == s2) = (s2 == s) := by
        by_cases h : s = s2
        · rw [h]
        · rw [beq_eq_false_iff_ne.mpr h, beq_eq_false_iff_ne.mpr (Ne.symm h)]
      simp [Json.beq, hs]

theorem matchesAll_map (st : Store) (l : List Dependency) :
    matchesAll (l.map (fun d => (JsVal.js (.str d.key), tagVersion st d.key)))
        (l.map dependencyToJson) =
      l.all (fun d => tagVersion st d.key == d.version && d.version.isSome) := by
  induction l with
  | nil => rfl
  | cons d rest ih =>
    simp only [List.map_cons, matchesAll, List.all_cons,
      depMatches_dependencyToJson, ih]

/-- Validating a payload whose snapshot was serialized from Dependency
records: valid iff every record still carries the exact current version
(an undefined version record can never validate). -/
theorem validate_snapshot (st : Store) (v : Json) (deps : List Dependency) :
    validateDependencyVersions st (.arr [v, dependenciesToJson deps]) =
      .ok (deps.all (fun d => tagVersion st d.key == d.version && d.version.isSome)) := by
  cases deps with
  | nil => rfl
  | cons d rest =>
    have h1 := mapSnapshotKeys_dependencyToJson (d :: rest)
    rw [List.map_cons] at h1
    show (do
        let keys ← mapSnapshotKeys (dependencyToJson d :: rest.map dependencyToJson)
        Except.ok (matchesAll (keys.map (fun x => (x, tagReadJs st x)))
          (dependencyToJson d :: rest.map dependencyToJson))) =
      Except.ok ((d :: rest).all
        (fun d => tagVersion st d.key == d.version && d.version.isSome))
    rw [h1]
    show Except.ok (matchesAll
        (((d :: rest).map (fun d => JsVal.js (.str d.key))).map
          (fun x => (x, tagReadJs st x)))
        ((d :: rest).map dependencyToJson)) = _
    rw [List.map_map]
    exact congrArg Except.ok (matchesAll_map st (d :: rest))

/-! ### Helper lemmas: data entries survive tag activity -/

theorem tagVersion_storeSet_ne (st : Store) (k : String) (c : Cell) (t : Option Nat)
    (x : String) (h : k ≠ x) : tagVersion (storeSet st k c t) x = tagVersion st x := by
  simp [tagVersion, storeGet, h]

theorem tagVersion_generate (st : Store) (now : Nat) (keys : List String) (x : String) :
    tagVersion (generateDependencyVersions st now keys).1 x =
      if x ∈ keys ∧ tagVersion st x = none then some (toString now)
      else tagVersion st x := by
  by_cases h : x ∈ keys ∧ tagVersion st x = none
  · rw [if_pos h]
    show ((storeFind (generateDependencyVersions st now keys).1 x).map
      (fun e => e.1)).map Cell.raw = some (toString now)
    rw [generateDependencyVersions_fst, if_pos h]
    rfl
  · rw [if_neg h]
    show ((storeFind (generateDependencyVersions st now keys).1 x).map
      (fun e => e.1)).map Cell.raw = tagVersion st x
    rw [generateDependencyVersions_fst, if_neg h]
    rfl

theorem invalidate_fst_data (st : Store) (now : Nat) (a : DependencyKeysArg)
    (k : String) :
    storeFind (invalidate st now a).1 (buildDataCacheKey k) =
      storeFind st (buildDataCacheKey k) := by
  rw [invalidate]
  by_cases ht : isTruthyArg a
  · rw [if_pos ht]
    simp only [updateDependencyVersions_fst]
    rw [if_neg (dataKey_not_mem_map_tagKey k _)]
  · rw [if_neg ht]

theorem runInvalidates_data (ops : List (Nat × DependencyKeysArg)) (st : Store)
    (k : String) :
    storeFind (runInvalidates st ops) (buildDataCacheKey k) =
      storeFind st (buildDataCacheKey k) := by
  induction ops generalizing st with
  | nil => rfl
  | cons p rest ih =>
    rcases p with ⟨now, a⟩
    rw [runInvalidates, ih, invalidate_fst_data]

/-! ### Reading an entry whose payload was written by set -/

/-- When the data key holds a set-written payload and every recorded
dependency still carries exactly the current tag version, get returns
the stored value. -/
theorem get_unfold (st2 : Store) (key : String) :
    get st2 key =
      (match storeGet st2 (buildDataCacheKey key) with
       | none => Except.ok none
       | some c =>
           match c.parsed with
           | none => .error ()
           | some data =>
               match validateDependencyVersions st2 data with
               | .error e => .error e
               | .ok true => .ok (jsonIndex0 data)
               | .ok false => .ok none) := rfl

theorem get_of_valid (st2 : Store) (k : String) (w : JsVal) (deps : List Dependency)
    (t : Option Nat)
    (hfind : storeFind st2 (buildDataCacheKey k) =
      some (mkDataCell (.arr [jsImage w, dependenciesToJson deps]), t))
    (hdeps : ∀ d ∈ deps, tagVersion st2 d.key = d.version ∧ d.version ≠ none) :
    get st2 k = .ok (some (jsImage w)) := by
  rw [get_unfold, storeGet, hfind]
  simp only [Option.map_some, Option.map_some', mkDataCell]
  rw [validate_snapshot]
  have hall : deps.all
      (fun d => tagVersion st2 d.key == d.version && d.version.isSome) = true := by
    rw [List.all_eq_true]
    intro d hd
    obtain ⟨h1, h2⟩ := hdeps d hd
    rw [h1]
    simp [Option.isSome_iff_ne_none, h2]
  rw [hall]
  rfl

/-- When the data key holds a set-written payload and some recorded
dependency no longer matches the current tag version, get returns
undefined. -/
theorem get_of_stale (st2 : Store) (k : String) (w : JsVal) (deps : List Dependency)
    (t : Option Nat)
    (hfind : storeFind st2 (buildDataCacheKey k) =
      some (mkDataCell (.arr [jsImage w, dependenciesToJson deps]), t))
    (hstale : deps.all
      (fun d => tagVersion st2 d.key == d.version && d.version.isSome) = false) :
    get st2 k = .ok none := by
  rw [get_unfold, storeGet, hfind]
  simp only [Option.map_some, Option.map_some', mkDataCell]
  rw [validate_snapshot, hstale]

/-! ### The central read-after-write lemma -/

/-- After set with pairwise-distinct dependency keys, get immediately
returns the JSON image of the stored value: every dependency record in
the written snapshot carries exactly the version currently recorded for
its tag (freshly minted for tags that had none). -/
theorem get_after_set (st : Store) (now : Nat) (k : String) (value : JsVal)
    (ttl : Option Nat) (a : DependencyKeysArg)
    (hnd : (normalizeDependencyKeys a).Nodup) :
    get (set st now k value ttl a) k = .ok (some (jsImage value)) := by
  have hinj : Function.Injective buildDependencyCacheKey :=
    fun x y h => buildDependencyCacheKey_inj h
  have hndk : ((normalizeDependencyKeys a).map buildDependencyCacheKey).Nodup :=
    hnd.map hinj
  have hfind : storeFind (set st now k value ttl a) (buildDataCacheKey k) =
      some (mkDataCell (.arr [jsImage value, dependenciesToJson
        (generateDependencyVersions st now
          ((normalizeDependencyKeys a).map buildDependencyCacheKey)).2]), ttl) := by
    show storeFind (storeSet _ (buildDataCacheKey k) _ ttl) (buildDataCacheKey k) = _
    rw [storeFind_storeSet, if_pos rfl]
  refine get_of_valid _ k value
    (generateDependencyVersions st now
      ((normalizeDependencyKeys a).map buildDependencyCacheKey)).2 ttl hfind ?_
  intro d hd
  rw [generateDependencyVersions_snd st now _ hndk] at hd
  obtain ⟨dk, hdkmem, hde⟩ := List.mem_map.mp hd
  obtain ⟨x, _, hxe⟩ := List.mem_map.mp hdkmem
  have hne : buildDataCacheKey k ≠ dk := hxe ▸ dataKey_ne_tagKey k x
  rw [show set st now k value ttl a = storeSet
      (generateDependencyVersions st now
        ((normalizeDependencyKeys a).map buildDependencyCacheKey)).1
      (buildDataCacheKey k)
      (mkDataCell (.arr [jsImage value, dependenciesToJson
        (generateDependencyVersions st now
          ((normalizeDependencyKeys a).map buildDependencyCacheKey)).2]))
      ttl from rfl]
  by_cases hv : tagVersion st dk = none
  · have hdval : d = ⟨dk, some (toString now)⟩ := by
      rw [← hde, if_pos (by simp [hv])]
    subst hdval
    rw [tagVersion_storeSet_ne _ _ _ _ _ hne, tagVersion_generate,
      if_pos ⟨hdkmem, hv⟩]
    exact ⟨rfl, by simp⟩
  · have hdval : d = ⟨dk, tagVersion st dk⟩ := by
      rw [← hde, if_neg (by simpa using hv)]
    subst hdval
    rw [tagVersion_storeSet_ne _ _ _ _ _ hne, tagVersion_generate,
      if_neg (by simp [hv])]
    exact ⟨rfl, by simpa using hv⟩

/-! ### Claim C2 -/

/-- C2: set with an empty dependency list followed by get returns the
value, and an entry whose stored snapshot is the empty sequence is
judged valid in every store state, so no amount of tag invalidation can
make it stale. -/
theorem c2_empty_deps_round_trip (st : Store) (now : Nat) (k : String) (v : Json)
    (ttl : Option Nat) (ops : List (Nat × DependencyKeysArg)) :
    get (runInvalidates (set st now k (.js v) ttl (.list [])) ops) k = .ok (some v)
  ∧ (∀ (st2 : Store) (w : Json),
      validateDependencyVersions st2 (.arr [w, .arr []]) = .ok true) := by
  constructor
  · have hfind : storeFind (runInvalidates (set st now k (.js v) ttl (.list [])) ops)
        (buildDataCacheKey k) =
        some (mkDataCell (.arr [v, dependenciesToJson []]), ttl) := by
      rw [runInvalidates_data]
      show storeFind (storeSet _ (buildDataCacheKey k) _ ttl) (buildDataCacheKey k) = _
      rw [storeFind_storeSet, if_pos rfl]
      rfl
    exact get_of_valid _ k (.js v) [] ttl hfind (fun d hd => absurd hd (List.not_mem_nil d))
  · intro st2 w
    rfl

/-! ### Claim C10 -/

/-- C10: the value handed back by get after a set with no dependencies
is the JSON image of the stored JS value (JSON.parse of JSON.stringify);
storing undefined therefore yields null on read, which is a present
value, not the not-found result. -/
theorem c10_json_image (st : Store) (now : Nat) (k : String) (ttl : Option Nat) :
    (∀ value : JsVal,
      get (set st now k value ttl (.list [])) k = .ok (some (jsImage value)))
  ∧ get (set st now k .undefined ttl (.list [])) k = .ok (some Json.null)
  ∧ (Except.ok (some Json.null) : Except Unit (Option Json)) ≠ .ok none := by
  refine ⟨fun value => get_after_set st now k value ttl (.list []) List.nodup_nil,
    get_after_set st now k .undefined ttl (.list []) List.nodup_nil,
    fun h => Option.noConfusion (Except.ok.inj h)⟩

/-! ### Claim C8 -/

/-- C8: updateDependencyVersions computes one shared token, the clock
reading rendered as a string, writes the same token (with the tag ttl)
to every key in the batch, and returns one Dependency per input key in
order, all carrying that token. -/
theorem c8_update_shared_token (st : Store) (now : Nat) (keys : List String)
    (hne : keys ≠ []) :
    (updateDependencyVersions st now keys).2 =
      keys.map (fun k => ⟨k, some (toString now)⟩)
  ∧ ∀ k ∈ keys, storeFind (updateDependencyVersions st now keys).1 k =
      some (mkTagCell now, some ttlNoExpiry) := by
  refine ⟨rfl, fun k hk => ?_⟩
  rw [updateDependencyVersions_fst, if_pos hk]
  rfl

/-- Witness for C8 at a concrete batch. -/
theorem c8_update_shared_token_witness :
    storeFind (updateDependencyVersions [] 5 ["T_a", "T_b"]).1 "T_a" =
      some (mkTagCell 5, some ttlNoExpiry) :=
  (c8_update_shared_token [] 5 ["T_a", "T_b"] (by decide)).2 "T_a" (by decide)

/-! ### Claim C9 -/

/-- C9: every tag-version write, whether issued by invalidate or by
first-use minting inside set via updateDependencyVersions, records the
no-expiry ttl value 0 in the backing store. -/
theorem c9_tag_writes_no_expiry (st : Store) (now : Nat) :
    (∀ (keys : List String), ∀ k ∈ keys,
      storeTtl (updateDependencyVersions st now keys).1 k = some (some ttlNoExpiry))
  ∧ (∀ (l : List String), ∀ x ∈ l,
      storeTtl (invalidate st now (.list l)).1 (buildDependencyCacheKey x) =
        some (some ttlNoExpiry))
  ∧ (∀ (l : List String), ∀ x ∈ l, tagVersion st (buildDependencyCacheKey x) = none →
      storeTtl (set st now "k" .undefined none (.list l)) (buildDependencyCacheKey x) =
        some (some ttlNoExpiry)) := by
  refine ⟨fun keys k hk => ?_, fun l x hx => ?_, fun l x hx hv => ?_⟩
  · show (storeFind (updateDependencyVersions st now keys).1 k).map
      (fun e => e.2) = some (some ttlNoExpiry)
    rw [updateDependencyVersions_fst, if_pos hk]
    rfl
  · show (storeFind (updateDependencyVersions st now
      ((normalizeDependencyKeys (.list l)).map buildDependencyCacheKey)).1
        (buildDependencyCacheKey x)).map (fun e => e.2) = some (some ttlNoExpiry)
    rw [updateDependencyVersions_fst,
      if_pos (show buildDependencyCacheKey x ∈
        (normalizeDependencyKeys (.list l)).map buildDependencyCacheKey from
        mem_map_tagKey hx)]
    rfl
  · show (storeFind (storeSet
      (generateDependencyVersions st now
        ((normalizeDependencyKeys (.list l)).map buildDependencyCacheKey)).1
      (buildDataCacheKey "k") _ none) (buildDependencyCacheKey x)).map
        (fun e => e.2) = some (some ttlNoExpiry)
    rw [storeFind_storeSet, if_neg (dataKey_ne_tagKey "k" x),
      generateDependencyVersions_fst,
      if_pos ⟨show buildDependencyCacheKey x ∈
        (normalizeDependencyKeys (.list l)).map buildDependencyCacheKey from
        mem_map_tagKey hx, hv⟩]
    rfl

/-- Witness for C9 at concrete writes. -/
theorem c9_tag_writes_no_expiry_witness :
    storeTtl (updateDependencyVersions [] 5 ["T_a"]).1 "T_a" = some (some ttlNoExpiry)
  ∧ storeTtl (invalidate [] 5 (.list ["T"])).1 (buildDependencyCacheKey "T") =
      some (some ttlNoExpiry)
  ∧ storeTtl (set [] 5 "k" .undefined none (.list ["T"])) (buildDependencyCacheKey "T") =
      some (some ttlNoExpiry) :=
  ⟨(c9_tag_writes_no_expiry [] 5).1 ["T_a"] "T_a" (by decide),
   (c9_tag_writes_no_expiry [] 5).2.1 ["T"] "T" (by decide),
   (c9_tag_writes_no_expiry [] 5).2.2 ["T"] "T" (by decide) (by decide)⟩

/-! ### Claim C5 -/

/-- C5 counterexample: the claim says invalidate on an empty sequence
returns false, but an empty array is truthy in JavaScript, so the code
takes the success branch and returns true. -/
theorem c5_counterexample : (invalidate [] 0 (.list [])).2 = true := rfl

/-- C5 amended: invalidate returns false and leaves the store untouched
for null/undefined and for the falsy empty string; for an empty array it
performs no writes but returns true; for a non-empty array it writes the
current-clock token to every listed tag and returns true. -/
theorem c5_invalidate_arguments (st : Store) (now : Nat) :
    invalidate st now .absent = (st, false)
  ∧ invalidate st now (.single "") = (st, false)
  ∧ invalidate st now (.list []) = (st, true)
  ∧ ∀ (l : List String) (now2 : Nat), l ≠ [] →
      ((invalidate st now2 (.list l)).2 = true
       ∧ ∀ x ∈ l, tagVersion (invalidate st now2 (.list l)).1
          (buildDependencyCacheKey x) = some (toString now2)) := by
  refine ⟨rfl, rfl, rfl, fun l now2 hl => ⟨rfl, fun x hx => ?_⟩⟩
  show tagVersion (updateDependencyVersions st now2
    ((normalizeDependencyKeys (.list l)).map buildDependencyCacheKey)).1
    (buildDependencyCacheKey x) = some (toString now2)
  rw [tagVersion_update,
    if_pos (show buildDependencyCacheKey x ∈
      (normalizeDependencyKeys (.list l)).map buildDependencyCacheKey from
      mem_map_tagKey hx)]

/-- Witness for C5 at a concrete non-empty argument. -/
theorem c5_invalidate_arguments_witness :
    (invalidate [] 7 (.list ["T"])).2 = true
  ∧ tagVersion (invalidate [] 7 (.list ["T"])).1 (buildDependencyCacheKey "T") =
      some (toString 7) :=
  ⟨((c5_invalidate_arguments [] 0).2.2.2 ["T"] 7 (by decide)).1,
   ((c5_invalidate_arguments [] 0).2.2.2 ["T"] 7 (by decide)).2 "T" (by decide)⟩

/-! ### Claim C1 -/

/-- C1 counterexample: with the mint and the invalidation falling on the
same Date.now reading, the freshly written tag version equals the one in
the snapshot, so after invalidate the entry still validates and get
returns the value instead of the not-found the claim demands. -/
theorem c1_counterexample :
    (invalidate (set [] 0 "k" (.js (.str "v")) (some 60) (.list ["T"])) 0
        (.list ["T"])).2 = true
  ∧ get ((invalidate (set [] 0 "k" (.js (.str "v")) (some 60) (.list ["T"])) 0
        (.list ["T"])).1) "k" = .ok (some (.str "v")) := by
  exact ⟨rfl, by decide⟩

/-- C1 amended: set then get returns the value, and invalidate of the
tag makes a subsequent get return not-found provided the invalidation
clock reading renders to a version token different from the one minted
at set time (same-millisecond invalidation leaves the token unchanged
and is not observed). -/
theorem c1_tag_invalidation (k d : String) (v : Json) (ttl : Option Nat)
    (t0 t1 : Nat) (hver : toString t1 ≠ toString t0) :
    get (set [] t0 k (.js v) ttl (.list [d])) k = .ok (some v)
  ∧ get ((invalidate (set [] t0 k (.js v) ttl (.list [d])) t1 (.list [d])).1) k =
      .ok none := by
  constructor
  · exact get_after_set [] t0 k (.js v) ttl (.list [d]) (List.nodup_singleton d)
  · have hdeps : (generateDependencyVersions [] t0
        ((normalizeDependencyKeys (.list [d])).map buildDependencyCacheKey)).2 =
        [⟨buildDependencyCacheKey d, some (toString t0)⟩] := by
      rw [generateDependencyVersions_snd [] t0
        ((normalizeDependencyKeys (.list [d])).map buildDependencyCacheKey)
        (show ((normalizeDependencyKeys (.list [d])).map
            buildDependencyCacheKey).Nodup from
          (List.nodup_singleton d).map (fun x y h => buildDependencyCacheKey_inj h))]
      rfl
    have hfind0 : storeFind (set [] t0 k (.js v) ttl (.list [d]))
        (buildDataCacheKey k) =
        some (mkDataCell (.arr [jsImage (.js v), dependenciesToJson
          (generateDependencyVersions [] t0
            ((normalizeDependencyKeys (.list [d])).map buildDependencyCacheKey)).2]),
          ttl) := by
      show storeFind (storeSet _ (buildDataCacheKey k) _ ttl) (buildDataCacheKey k) = _
      rw [storeFind_storeSet, if_pos rfl]
    rw [hdeps] at hfind0
    have hfind : storeFind ((invalidate (set [] t0 k (.js v) ttl (.list [d])) t1
        (.list [d])).1) (buildDataCacheKey k) =
        some (mkDataCell (.arr [jsImage (.js v), dependenciesToJson
          [⟨buildDependencyCacheKey d, some (toString t0)⟩]]), ttl) := by
      rw [invalidate_fst_data]
      exact hfind0
    refine get_of_stale _ k (.js v) [⟨buildDependencyCacheKey d, some (toString t0)⟩]
      ttl hfind ?_
    have htv : tagVersion ((invalidate (set [] t0 k (.js v) ttl (.list [d])) t1
        (.list [d])).1) (buildDependencyCacheKey d) = some (toString t1) := by
      show tagVersion (updateDependencyVersions _ t1
        ((normalizeDependencyKeys (.list [d])).map buildDependencyCacheKey)).1
        (buildDependencyCacheKey d) = some (toString t1)
      rw [tagVersion_update,
        if_pos (show buildDependencyCacheKey d ∈
          (normalizeDependencyKeys (.list [d])).map buildDependencyCacheKey from
          mem_map_tagKey (List.mem_singleton_self d))]
    have hsb : ((some (toString t1) : Option String) == some (toString t0)) = false :=
      beq_eq_false_iff_ne.mpr (fun hh => hver (Option.some.inj hh))
    simp [List.all_cons, htv, hsb]

/-- Witness for C1 amended at concrete clock readings 0 and 1. -/
theorem c1_tag_invalidation_witness :
    get (set [] 0 "k" (.js (.str "v")) (some 60) (.list ["T"])) "k" =
      .ok (some (.str "v"))
  ∧ get ((invalidate (set [] 0 "k" (.js (.str "v")) (some 60) (.list ["T"])) 1
      (.list ["T"])).1) "k" = .ok none :=
  c1_tag_invalidation "k" "T" (.str "v") (some 60) 0 1 (by decide)

/-! ### Claim C4 -/

/-- C4 counterexample: invoked on a duplicated not-yet-minted key, the
merge replaces only the first matching record, so the second returned
Dependency keeps the absent version, contradicting the claim that no
returned record is ever left unresolved even with duplicate keys. -/
theorem c4_counterexample :
    ((generateDependencyVersions [] 0 ["T_a", "T_a"]).2.map
      (fun d => d.version)) = [some "0", none] := by decide

/-- C4 amended: when the requested tag keys are pairwise distinct,
generateDependencyVersions returns one Dependency per input key in the
original fetch order and every returned record carries a concrete
version; a duplicated previously-absent key leaves its later duplicate
occurrence with the absent version. -/
theorem c4_generate_resolved (st : Store) (now : Nat) (keys : List String)
    (hnd : keys.Nodup) :
    ((generateDependencyVersions st now keys).2.map (fun d => d.key) = keys)
  ∧ (∀ d ∈ (generateDependencyVersions st now keys).2, d.version ≠ none) := by
  rw [generateDependencyVersions_snd st now keys hnd]
  constructor
  · rw [List.map_map]
    refine List.map_id'' (fun k => ?_) keys
    simp only [Function.comp_apply]
    split <;> rfl
  · intro d hd
    obtain ⟨x, hx, hde⟩ := List.mem_map.mp hd
    rw [← hde]
    split
    · simp
    · next h => simpa using h

/-- Witness for C4 at a concrete duplicate-free input. -/
theorem c4_generate_resolved_witness :
    ((generateDependencyVersions [] 0 ["T_a", "T_b"]).2.map (fun d => d.key) =
      ["T_a", "T_b"]) :=
  (c4_generate_resolved [] 0 ["T_a", "T_b"] (by decide)).1

/-! ### Claim C6 -/

/-- C6 counterexample: a stored text that JSON.parse rejects makes get
throw (the source never catches JSON.parse), so the fault propagates
instead of the claimed not-found result. -/
theorem c6_counterexample :
    get [("D_k", ⟨"oops", none⟩, none)] "k" = .error () := by decide

/-- C6 amended: a stored payload that parses to anything other than a
2-element sequence yields not-found without a fault; but a payload that
fails to parse, and a 2-element payload whose second element is neither
null nor a sequence, make get propagate a fault. -/
theorem c6_malformed_payload (st : Store) (k raw : String) (j : Json)
    (t : Option Nat) :
    (storeFind st (buildDataCacheKey k) = some (⟨raw, none⟩, t) →
      get st k = .error ())
  ∧ (storeFind st (buildDataCacheKey k) = some (⟨raw, some j⟩, t) →
      (∀ l : List Json, j = .arr l → l.length ≠ 2) → get st k = .ok none)
  ∧ (∀ a b : Json,
      storeFind st (buildDataCacheKey k) = some (⟨raw, some (.arr [a, b])⟩, t) →
      b ≠ .null → (∀ l : List Json, b ≠ .arr l) → get st k = .error ()) := by
  refine ⟨fun hf => ?_, fun hf hsh => ?_, fun a b hf hb1 hb2 => ?_⟩
  · rw [get_unfold, storeGet, hf]
    rfl
  · rw [get_unfold, storeGet, hf]
    have hv : validateDependencyVersions st j = .ok false := by
      rcases j with _ | b | n | s | l | fs
      case arr =>
        match l, hsh with
        | [], _ => rfl
        | [x], _ => rfl
        | [x, y], hsh => exact absurd rfl (hsh [x, y] rfl)
        | x :: y :: z :: rest, _ =>
            rcases y with _ | b2 | n2 | s2 | l2 | fs2
            case arr => rcases l2 with _ | ⟨w, ws⟩ <;> rfl
            all_goals rfl
      all_goals rfl
    simp only [Option.map_some']
    rw [hv]
  · rw [get_unfold, storeGet, hf]
    have hv : validateDependencyVersions st (.arr [a, b]) = .error () := by
      rcases b with _ | b2 | n | s | l | fs
      case null => exact absurd rfl hb1
      case arr => exact absurd rfl (hb2 l)
      all_goals rfl
    simp only [Option.map_some']
    rw [hv]

/-- Witness for C6 at concrete malformed payloads. -/
theorem c6_malformed_payload_witness :
    get [("D_k", ⟨"oops", none⟩, some 5)] "k" = .error ()
  ∧ get [("D_k", ⟨"3", some (.num 3)⟩, some 5)] "k" = .ok none
  ∧ get [("D_k", ⟨"[1,2]", some (.arr [.num 1, .num 2])⟩, some 5)] "k" =
      .error () :=
  ⟨(c6_malformed_payload [("D_k", ⟨"oops", none⟩, some 5)] "k" "oops" (.num 3)
      (some 5)).1 (by decide),
   (c6_malformed_payload [("D_k", ⟨"3", some (.num 3)⟩, some 5)] "k" "3" (.num 3)
      (some 5)).2.1 (by decide) (fun l hl => Json.noConfusion hl),
   (c6_malformed_payload [("D_k", ⟨"[1,2]", some (.arr [.num 1, .num 2])⟩, some 5)]
      "k" "[1,2]" (.num 3) (some 5)).2.2 (.num 1) (.num 2) (by decide)
      (fun h => Json.noConfusion h) (fun l hl => Json.noConfusion hl)⟩

/-! ### Claim C7 -/

/-- C7 counterexample: after storing an entry with two dependency
records and truncating its stored dependency array to the first record
(tag versions untouched), get returns the cached value, not the
not-found result the claim demands: the validity check re-fetches only
the keys that remain in the snapshot, so the truncation goes
undetected. -/
theorem c7_counterexample :
    get (storeSet (set [] 0 "k" (.js (.str "x")) none (.list ["a", "b"]))
      "D_k" (mkDataCell (.arr [.str "x",
        .arr [dependencyToJson ⟨"T_a", some "0"⟩]])) none) "k" =
      .ok (some (.str "x")) := by decide

/-- C7 amended: truncating the stored dependency array of an entry with
two records to its first record does not raise a fault, but get then
returns the cached value rather than not-found, because validation
re-fetches versions only for the keys still present in the snapshot and
those still match. -/
theorem c7_truncated_snapshot (k a b : String) (v : Json) (ttl : Option Nat)
    (t0 : Nat) (hab : a ≠ b) :
    get (storeSet (set [] t0 k (.js v) ttl (.list [a, b]))
      (buildDataCacheKey k)
      (mkDataCell (.arr [v,
        .arr [dependencyToJson ⟨buildDependencyCacheKey a, some (toString t0)⟩]]))
      none) k = .ok (some v) := by
  have hfind : storeFind (storeSet (set [] t0 k (.js v) ttl (.list [a, b]))
      (buildDataCacheKey k)
      (mkDataCell (.arr [v,
        .arr [dependencyToJson ⟨buildDependencyCacheKey a, some (toString t0)⟩]]))
      none) (buildDataCacheKey k) =
      some (mkDataCell (.arr [jsImage (.js v), dependenciesToJson
        [⟨buildDependencyCacheKey a, some (toString t0)⟩]]), none) := by
    rw [storeFind_storeSet, if_pos rfl]
    rfl
  refine get_of_valid _ k (.js v)
    [⟨buildDependencyCacheKey a, some (toString t0)⟩] none hfind ?_
  intro d hd
  rw [List.mem_singleton] at hd
  subst hd
  refine ⟨?_, by simp⟩
  rw [tagVersion_storeSet_ne _ _ _ _ _ (dataKey_ne_tagKey k a)]
  show tagVersion (storeSet (generateDependencyVersions [] t0
      ((normalizeDependencyKeys (.list [a, b])).map buildDependencyCacheKey)).1
    (buildDataCacheKey k) _ ttl) (buildDependencyCacheKey a) = some (toString t0)
  rw [tagVersion_storeSet_ne _ _ _ _ _ (dataKey_ne_tagKey k a), tagVersion_generate,
    if_pos ⟨show buildDependencyCacheKey a ∈
      (normalizeDependencyKeys (.list [a, b])).map buildDependencyCacheKey from
      mem_map_tagKey (List.mem_cons_self a [b]), rfl⟩]

/-- Witness for C7 at a concrete corrupted entry. -/
theorem c7_truncated_snapshot_witness :
    get (storeSet (set [] 3 "k" (.js (.num 9)) (some 60) (.list ["a", "b"]))
      (buildDataCacheKey "k")
      (mkDataCell (.arr [.num 9,
        .arr [dependencyToJson ⟨buildDependencyCacheKey "a", some (toString 3)⟩]]))
      none) "k" = .ok (some (.num 9)) :=
  c7_truncated_snapshot "k" "a" "b" (.num 9) (some 60) 3 (by decide)

/-! ### Claim C3 -/

/-- C3 counterexample: two invalidations of the same tag under the same
Date.now reading mint the same token, so the second invalidate, although
it reports success, leaves the stored tag version unchanged — refuting
the claim that every invalidate produces a version different from the
previous one. -/
theorem c3_counterexample :
    (invalidate (invalidate [] 5 (.list ["T"])).1 5 (.list ["T"])).2 = true
  ∧ tagVersion (invalidate (invalidate [] 5 (.list ["T"])).1 5 (.list ["T"])).1
      (buildDependencyCacheKey "T") =
    tagVersion (invalidate [] 5 (.list ["T"])).1 (buildDependencyCacheKey "T") := by
  exact ⟨rfl, by decide⟩

/-- C3 amended: per operation step, get and delete never touch any tag
version; set never overwrites a recorded version and mints the clock
token only for a listed tag with no version; invalidate writes the clock
token to exactly the listed tags; an invalidate therefore changes a
recorded version if and only if the tag is listed and the minted token
differs from the recorded one — which holds whenever the clock token
differs, but not under a repeated Date.now reading. -/
theorem c3_tag_version_writes (st : Store) (x : String) :
    (∀ k, tagVersion (stepOp st (.getOp k)) (buildDependencyCacheKey x) =
      tagVersion st (buildDependencyCacheKey x))
  ∧ (∀ k, tagVersion (stepOp st (.deleteOp k)) (buildDependencyCacheKey x) =
      tagVersion st (buildDependencyCacheKey x))
  ∧ (∀ now k value ttl a s,
      tagVersion st (buildDependencyCacheKey x) = some s →
      tagVersion (stepOp st (.setOp now k value ttl a))
        (buildDependencyCacheKey x) = some s)
  ∧ (∀ now k value ttl a,
      tagVersion st (buildDependencyCacheKey x) = none →
      x ∈ normalizeDependencyKeys a →
      tagVersion (stepOp st (.setOp now k value ttl a))
        (buildDependencyCacheKey x) = some (toString now))
  ∧ (∀ now a, x ∉ normalizeDependencyKeys a →
      tagVersion (stepOp st (.invalidateOp now a)) (buildDependencyCacheKey x) =
        tagVersion st (buildDependencyCacheKey x))
  ∧ (∀ now a, isTruthyArg a → x ∈ normalizeDependencyKeys a →
      tagVersion (stepOp st (.invalidateOp now a)) (buildDependencyCacheKey x) =
        some (toString now))
  ∧ (∀ now a s, isTruthyArg a → x ∈ normalizeDependencyKeys a →
      tagVersion st (buildDependencyCacheKey x) = some s → s ≠ toString now →
      tagVersion (stepOp st (.invalidateOp now a)) (buildDependencyCacheKey x) ≠
        tagVersion st (buildDependencyCacheKey x)) := by
  have hinv : ∀ now a, isTruthyArg a → x ∈ normalizeDependencyKeys a →
      tagVersion (stepOp st (.invalidateOp now a)) (buildDependencyCacheKey x) =
        some (toString now) := by
    intro now a ht hmem
    show tagVersion (invalidate st now a).1 (buildDependencyCacheKey x) = _
    have h1 : (invalidate st now a).1 = (updateDependencyVersions st now
        ((normalizeDependencyKeys a).map buildDependencyCacheKey)).1 := by
      rw [invalidate, if_pos ht]
    rw [h1, tagVersion_update, if_pos (mem_map_tagKey hmem)]
  refine ⟨fun k => rfl, fun k => ?_, fun now k value ttl a s hs => ?_,
    fun now k value ttl a hnone hmem => ?_, fun now a hx => ?_, hinv,
    fun now a s ht hmem hs hneq => ?_⟩
  · show ((storeFind (storeDel st (buildDataCacheKey k))
      (buildDependencyCacheKey x)).map (fun e => e.1)).map Cell.raw =
      tagVersion st (buildDependencyCacheKey x)
    rw [storeFind_storeDel, if_neg (dataKey_ne_tagKey k x)]
    rfl
  · show tagVersion (storeSet (generateDependencyVersions st now
        ((normalizeDependencyKeys a).map buildDependencyCacheKey)).1
      (buildDataCacheKey k) _ ttl) (buildDependencyCacheKey x) = some s
    rw [tagVersion_storeSet_ne _ _ _ _ _ (dataKey_ne_tagKey k x),
      tagVersion_generate,
      if_neg (fun hc => Option.noConfusion (hs.symm.trans hc.2))]
    exact hs
  · show tagVersion (storeSet (generateDependencyVersions st now
        ((normalizeDependencyKeys a).map buildDependencyCacheKey)).1
      (buildDataCacheKey k) _ ttl) (buildDependencyCacheKey x) = some (toString now)
    rw [tagVersion_storeSet_ne _ _ _ _ _ (dataKey_ne_tagKey k x),
      tagVersion_generate, if_pos ⟨mem_map_tagKey hmem, hnone⟩]
  · show tagVersion (invalidate st now a).1 (buildDependencyCacheKey x) =
      tagVersion st (buildDependencyCacheKey x)
    by_cases ht : isTruthyArg a
    · have h1 : (invalidate st now a).1 = (updateDependencyVersions st now
          ((normalizeDependencyKeys a).map buildDependencyCacheKey)).1 := by
        rw [invalidate, if_pos ht]
      rw [h1, tagVersion_update,
        if_neg (fun hm => hx (tagKey_mem_map_iff.mp hm))]
    · have h1 : (invalidate st now a).1 = st := by
        rw [invalidate, if_neg ht]
      rw [h1]
  · rw [hinv now a ht hmem, hs]
    exact fun heq => hneq (Option.some.inj heq).symm

/-- Witness for C3 at concrete operations and store states. -/
theorem c3_tag_version_writes_witness :
    tagVersion (stepOp [("T_T", Cell.mk "1" (some (.num 1)), some 0)]
      (.invalidateOp 5 (.list ["T"]))) (buildDependencyCacheKey "T") = some "5"
  ∧ tagVersion (stepOp [("T_T", Cell.mk "1" (some (.num 1)), some 0)]
      (.setOp 7 "k" .undefined none (.list ["T"]))) (buildDependencyCacheKey "T") =
      some "1"
  ∧ tagVersion (stepOp [] (.setOp 7 "k" .undefined none (.list ["T"])))
      (buildDependencyCacheKey "T") = some (toString 7)
  ∧ tagVersion (stepOp [("T_T", Cell.mk "1" (some (.num 1)), some 0)]
      (.invalidateOp 5 (.list ["T"]))) (buildDependencyCacheKey "T") ≠
    tagVersion [("T_T", Cell.mk "1" (some (.num 1)), some 0)]
      (buildDependencyCacheKey "T") :=
  ⟨(c3_tag_version_writes _ "T").2.2.2.2.2.1 5 (.list ["T"]) (by decide) (by decide),
   (c3_tag_version_writes _ "T").2.2.1 7 "k" .undefined none (.list ["T"]) "1" (by decide),
   (c3_tag_version_writes [] "T").2.2.2.1 7 "k" .undefined none (.list ["T"]) (by decide)
     (by decide),
   (c3_tag_version_writes _ "T").2.2.2.2.2.2 5 (.list ["T"]) "1" (by decide)
     (by decide) (by decide) (by decide)⟩
